import Mathlib

/-!
Verification development for the Phantasy sample-detection example
(`examples/find_sample_usage/src/main.rs`).

The Rust source is shallowly embedded as follows:
* `f32` audio samples, window coefficients and spectral magnitudes are
  modelled as real numbers (`ℝ`); the NaN-sensitive code path in
  `find_peaks` models a possibly-NaN `f32` as `Option ℝ`, `none` being NaN.
* machine integers (`u16`, `u32`, `usize`, `i32`) are modelled as `ℕ`/`ℤ`,
  with an explicit `% 2^w` exactly where the source performs an `as` cast.
* Rust panics (out-of-bounds indexing, `unwrap` of `None`, division by
  zero) are modelled by returning `none` from an `Option`-valued function.
* `rustfft`'s `plan_fft_forward(n).process` is an external crate; it is
  modelled by its documented contract, the forward DFT
  `X_k = Σ_j x_j · exp(−2πi·j·k/n)` (no normalization).
* filesystem / JSON persistence (`serde_json`) is modelled by an explicit
  association list of file names to a small JSON value type, with an
  executable encoder/decoder for `FingerprintData`.
-/

namespace Phantasy

/-- `Option`-specialized effectful map: the embedding of a Rust loop that
builds a vector and propagates the first failure (panic / `?`). -/
def mapO (f : α → Option β) : List α → Option (List β)
  | [] => some []
  | a :: l =>
    match f a, mapO f l with
    | some b, some bs => some (b :: bs)
    | _, _ => none

/-- `struct FPHashEntry` (main.rs lines 161-168): one landmark hash.
Fields `f1 f2 : u16`, `delta_t : u16`, `anchor_time : u32`, modelled as `ℕ`. -/
structure FPHashEntry where
  f1 : ℕ
  f2 : ℕ
  delta_t : ℕ
  anchor_time : ℕ
deriving DecidableEq, Repr

/-- `struct FingerprintData` (main.rs lines 153-158). -/
structure FingerprintData where
  pairs : List FPHashEntry
deriving DecidableEq, Repr

/-- The `(f1, f2, delta_t)` key used by `find_matches` (main.rs line 295). -/
def entryKey (e : FPHashEntry) : ℕ × ℕ × ℕ := (e.f1, e.f2, e.delta_t)

/-- The `track_map` lookup of `find_matches` (main.rs lines 293-297):
for a key, the list of `anchor_time`s of the track entries carrying that
key, in insertion order (the `HashMap<_, Vec<u32>>` is populated by one
ordered pass over `track_fp.pairs`, so the per-key `Vec` is exactly the
ordered filter of the pairs list). -/
def track_times (track_fp : FingerprintData) (k : ℕ × ℕ × ℕ) : List ℕ :=
  (track_fp.pairs.filter (fun e => entryKey e = k)).map (fun e => e.anchor_time)

/-- The `u32 as i32` cast of main.rs line 308: two's-complement
reinterpretation, so values ≥ 2^31 become negative. The leading `% 2^32`
makes the model total on `ℕ`; genuine `u32` values are unchanged by it. -/
def u32_as_i32 (n : ℕ) : ℤ :=
  if n % 4294967296 < 2147483648 then ((n % 4294967296 : ℕ) : ℤ)
  else ((n % 4294967296 : ℕ) : ℤ) - 4294967296

/-- Two's-complement `i32` wrap of an integer: the value the `i32`
subtraction of main.rs line 308 produces when it overflows in a release
build (overflow-checks off). A debug build panics at such an overflow
instead; with both operands already in `[-2^31, 2^31)` the overflow is
reachable only when anchor times on the two sides straddle 2^31. -/
def i32_wrap (z : ℤ) : ℤ :=
  (z + 2147483648) % 4294967296 - 2147483648

/-- The multiset of per-collision offsets accumulated in `offset_count`
(main.rs lines 302-312): for each snippet entry, for each track entry
with the same key, the `i32` value
`track_anchor_time as i32 - snippet_ent.anchor_time as i32` (line 308) —
both `u32 → i32` casts wrap two's-complement, and the `i32` subtraction
itself wraps (see `i32_wrap`). `offset_count[d]` of the source equals the
number of occurrences of `d` in this list. -/
def offset_diffs (snippet_fp track_fp : FingerprintData) : List ℤ :=
  snippet_fp.pairs.flatMap (fun se =>
    (track_times track_fp (entryKey se)).map
      (fun (ta : ℕ) => i32_wrap (u32_as_i32 ta - u32_as_i32 se.anchor_time)))

/-- `offset_count.into_iter().max_by_key(|(_, c)| *c)` (main.rs line 318):
pick an offset with the greatest collision count.  `HashMap` iteration
order is unspecified; we iterate the distinct offsets in a fixed
(deduplicated) order and keep the first maximum, which realizes one of the
permitted behaviours (ties are broken arbitrarily). Returns `none` iff no
collision was recorded (the `offset_count.is_empty()` check, line 315).
`best_step` keeps the running `(offset, count)` maximum. -/
def best_step (l : List ℤ) (acc : Option (ℤ × ℕ)) (d : ℤ) : Option (ℤ × ℕ) :=
  match acc with
  | none => some (d, l.count d)
  | some (d0, c0) => if l.count d > c0 then some (d, l.count d) else some (d0, c0)

/-- See `best_step`. -/
def best_offset (l : List ℤ) : Option (ℤ × ℕ) :=
  l.dedup.foldl (best_step l) none

/-- The greatest per-offset collision count (0 when no collision). -/
def max_collision_count (l : List ℤ) : ℕ :=
  (l.map (fun d => l.count d)).foldr max 0

/-- Pure matching core of `find_matches` (main.rs lines 293-333); the
fingerprint loading of line 289 is modelled separately by
`load_or_build_fingerprint`.  `hop_size = 512` is hard-coded at line 323;
the `f32` offset arithmetic of line 324 is modelled in `ℚ`. -/
def find_matches (snippet_fp track_fp : FingerprintData) (sample_rate : ℕ) :
    Option (ℚ × ℕ) :=
  match best_offset (offset_diffs snippet_fp track_fp) with
  | none => none
  | some (best, c) =>
    if c > 5 then some ((best : ℚ) * ((512 : ℚ) / (sample_rate : ℚ)), c) else none

/-- Frame span ("duration" in spectrogram frames) of a fingerprint: the
largest anchor frame mentioned by its entries. -/
def frame_span (fp : FingerprintData) : ℕ :=
  (fp.pairs.map (fun e => e.anchor_time)).foldr max 0

/-- The Hann window coefficients (main.rs lines 232-234):
`0.5 - 0.5 * cos(2π·i/window_size)`. -/
noncomputable def window_func (window_size i : ℕ) : ℝ :=
  0.5 - 0.5 * Real.cos (2 * Real.pi * i / window_size)

/-- Model of `rustfft`'s `plan_fft_forward(n).process` (external crate,
main.rs lines 226, 242), by its documented contract: the unnormalized
forward DFT `X_k = Σ_{j<n} x_j · exp(−2πi·j·k/n)`. -/
noncomputable def fftForward (input : List ℂ) : List ℂ :=
  (List.range input.length).map (fun (k : ℕ) =>
    ∑ j in Finset.range input.length,
      input.getD j 0 * Complex.exp (-(2 * Real.pi * Complex.I * j * k) / input.length))

/-- `compute_spectrogram` (main.rs lines 212-253).
* `n_hops = pcm.len().saturating_sub(window_size) / hop_size + 1`:
  `ℕ` subtraction is saturating; Rust `/` panics on a zero divisor,
  modelled by the leading `none` branch.
* per hop, the buffer `buffer[i] = pcm[offset + i] * window_func[i]`
  (lines 238-241) is built with panicking indexing, modelled by `get?`;
* the per-hop magnitudes `sqrt(re*re + im*im)` of the first
  `n_freqs = window_size / 2` FFT bins are recorded (lines 244-249);
* the source writes into a `(n_freqs, n_hops)` matrix
  `spectrogram[freq_bin][hop_idx]`; we compute the per-hop columns and
  transpose, which fills the same matrix. -/
noncomputable def compute_spectrogram
    (pcm : List ℝ) (_sample_rate window_size hop_size : ℕ) :
    Option (List (List ℝ)) :=
  if hop_size = 0 then none
  else
    let n_hops := (pcm.length - window_size) / hop_size + 1
    let n_freqs := window_size / 2
    (mapO
        (fun hop_idx =>
          (mapO
              (fun i =>
                (pcm.get? (hop_idx * hop_size + i)).map
                  (fun x => ((x * window_func window_size i : ℝ) : ℂ)))
              (List.range window_size)).map
            (fun buffer =>
              (List.range n_freqs).map (fun k =>
                Real.sqrt
                  (((fftForward buffer).getD k 0).re * ((fftForward buffer).getD k 0).re +
                    ((fftForward buffer).getD k 0).im * ((fftForward buffer).getD k 0).im))))
        (List.range n_hops)).map
      (fun cols => (List.range n_freqs).map (fun f => cols.map (fun col => col.getD f 0)))

/-- The magnitude the source records for bin `k` of one analysis frame,
expressed as a function of that frame's samples alone: Hann-window the
frame, forward-DFT it, and take `sqrt(re² + im²)` of bin `k`. -/
noncomputable def frame_magnitude (window_size : ℕ) (frame : List ℝ) (k : ℕ) : ℝ :=
  let buffer := (List.range window_size).map
    (fun i => ((frame.getD i 0 * window_func window_size i : ℝ) : ℂ))
  Real.sqrt
    (((fftForward buffer).getD k 0).re * ((fftForward buffer).getD k 0).re +
      ((fftForward buffer).getD k 0).im * ((fftForward buffer).getD k 0).im)

/-- Model of `f32::partial_cmp` (main.rs line 272): a possibly-NaN `f32`
is `Option ℝ` with `none` = NaN; comparing with a NaN yields `none`, and
the subsequent `.unwrap()` panics. -/
noncomputable def pcmp (x y : Option ℝ) : Option Ordering :=
  match x, y with
  | some a, some b => some (if a < b then Ordering.lt else if b < a then Ordering.gt else Ordering.eq)
  | _, _ => none

/-- Insert `x` into `l` keeping `l`'s order except that `x` is placed
before the first element `y` with `cmp x y ≠ gt`; `none` iff some needed
comparison is undefined (the comparator's `.unwrap()` panics). -/
def insertOpt (cmp : α → α → Option Ordering) (x : α) : List α → Option (List α)
  | [] => some [x]
  | y :: ys =>
    match cmp x y with
    | none => none
    | some o =>
      if o = Ordering.gt then (insertOpt cmp x ys).map (fun r => y :: r)
      else some (x :: y :: ys)

/-- Model of `slice::sort_by` with a possibly-panicking comparator
(main.rs line 272): a stable sort ascending w.r.t. `cmp`, `none` iff a
performed comparison is undefined. A stable insertion sort realizes the
same output as the source's stable sort for every total comparator; like
the source's sort it performs no comparison on lists of length < 2. -/
def sortByOpt (cmp : α → α → Option Ordering) : List α → Option (List α)
  | [] => some []
  | x :: xs => (sortByOpt cmp xs).bind (insertOpt cmp x)

/-- `find_peaks` (main.rs lines 256-280).
* `n_freqs = spectrogram.len()`, early `[]` when 0 (lines 258-261);
* `n_hops = spectrogram[0].len()` (line 262), `top_n = 5` (line 263);
* per time slice, `freq_mags = (f as u16, spectrogram[f][time_idx])`
  (lines 268-270; the `u16` cast is `% 65536`, the inner indexing
  panics when a row is shorter than row 0, modelled by `get?`);
* sort descending by magnitude via the flipped comparator
  `b.1.partial_cmp(&a.1).unwrap()` (line 272) and keep the first
  `top_n` bin indices (line 274). -/
noncomputable def find_peaks (spectrogram : List (List (Option ℝ))) :
    Option (List (List ℕ)) :=
  let n_freqs := spectrogram.length
  if n_freqs = 0 then some []
  else
    let n_hops := spectrogram.headI.length
    mapO
      (fun time_idx =>
        (mapO
            (fun f =>
              ((spectrogram.getD f []).get? time_idx).map
                (fun m => (f % 65536, m)))
            (List.range n_freqs)).bind
          (fun freq_mags =>
            (sortByOpt (fun a b => pcmp b.2 a.2) freq_mags).map
              (fun sorted => (sorted.take 5).map Prod.fst)))
      (List.range n_hops)

/-- `fan_value` (main.rs line 183). -/
def fan_value : ℕ := 5

/-- The pairing stage of `compute_fingerprint` (main.rs lines 183-206):
for each frame `t` and each peak `f1` of that frame, pair `f1` with up to
`fan_value` peaks `f2` of each future frame
`future_t ∈ (t+1)..min(t+10, n_frames)` (a Rust half-open range), and
emit `{f1, f2, delta_t: (future_t - t) as u16, anchor_time: t as u32}`. -/
def makePairs (peaks_by_time : List (List ℕ)) : List FPHashEntry :=
  (List.range peaks_by_time.length).flatMap (fun t =>
    (peaks_by_time.getD t []).flatMap (fun f1 =>
      (List.range' (t + 1) (min (t + 10) peaks_by_time.length - (t + 1))).flatMap
        (fun future_t =>
          ((peaks_by_time.getD future_t []).take fan_value).map (fun f2 =>
            { f1 := f1, f2 := f2,
              delta_t := (future_t - t) % 65536,
              anchor_time := t % 4294967296 }))))

/-- `compute_fingerprint` (main.rs lines 171-209): spectrogram with
`window_size = 1024`, `hop_size = 512`, peak picking, then pairing. -/
noncomputable def compute_fingerprint (pcm : List ℝ) (sample_rate : ℕ) :
    Option FingerprintData :=
  (compute_spectrogram pcm sample_rate 1024 512).bind (fun spec =>
    (find_peaks (spec.map (fun row => row.map some))).map (fun peaks_by_time =>
      { pairs := makePairs peaks_by_time }))

/-- A small JSON value model for the persisted fingerprint files
(`serde_json`, main.rs lines 353 and 363; only numbers, arrays and
objects occur in a serialized `FingerprintData`). -/
inductive Jval where
  | num : ℕ → Jval
  | arr : List Jval → Jval
  | obj : List (String × Jval) → Jval

/-- serde serialization of one `FPHashEntry`
(`{f1, f2, delta_t, anchor_time}`, main.rs lines 161-168). -/
def encodeEntry (e : FPHashEntry) : Jval :=
  .obj [("f1", .num e.f1), ("f2", .num e.f2),
        ("delta_t", .num e.delta_t), ("anchor_time", .num e.anchor_time)]

/-- serde serialization of `FingerprintData` (`{pairs: [...]}`). -/
def encodeFingerprint (d : FingerprintData) : Jval :=
  .obj [("pairs", .arr (d.pairs.map encodeEntry))]

/-- Field lookup in a JSON object. -/
def jLookup (s : String) : Jval → Option Jval
  | .obj kvs => kvs.lookup s
  | _ => none

/-- serde deserialization of one `FPHashEntry`; `none` on shape mismatch. -/
def decodeEntry (j : Jval) : Option FPHashEntry :=
  match jLookup "f1" j, jLookup "f2" j, jLookup "delta_t" j, jLookup "anchor_time" j with
  | some (.num a), some (.num b), some (.num c), some (.num d) =>
    some { f1 := a, f2 := b, delta_t := c, anchor_time := d }
  | _, _, _, _ => none

/-- serde deserialization of `FingerprintData`; `none` on shape mismatch. -/
def decodeFingerprint (j : Jval) : Option FingerprintData :=
  match jLookup "pairs" j with
  | some (.arr items) => (mapO decodeEntry items).map (fun l => { pairs := l })
  | _ => none

/-- Model of `Path::file_stem` for a plain file name: the portion before
the last `.`, unless there is no `.` or the only `.` is leading (so the
extension-stripped stem of `"track.ogg"` is `"track"`, of `".bashrc"` is
`".bashrc"`). -/
def file_stem (name : String) : String :=
  let cs := name.toList
  match (cs.reverse.indexOf? '.').map (fun k => cs.length - 1 - k) with
  | none => name
  | some 0 => name
  | some i => ⟨cs.take i⟩

/-- `load_or_build_fingerprint` (main.rs lines 336-366), with the
filesystem `hashes/` directory modelled as an association list from file
names to JSON documents, and the decode+`compute_fingerprint` build of
lines 358-359 abstracted into the `build` argument (its value is what the
build path would produce).  Returns the result (`none` = per-track
error, here a corrupt cached document), the updated directory, and
whether the build path ran.
* cache key: `<file_stem(track)>.json` (lines 345-346);
* hit: deserialize and return, never building (lines 348-354);
* miss: build, persist, then return the built value (lines 355-365). -/
def load_or_build_fingerprint (fs : List (String × Jval)) (track_file_name : String)
    (build : FingerprintData) :
    Option FingerprintData × List (String × Jval) × Bool :=
  let hash_file := file_stem track_file_name ++ ".json"
  match fs.lookup hash_file with
  | some doc => (decodeFingerprint doc, fs, false)
  | none => (some build, (hash_file, encodeFingerprint build) :: fs, true)

/-- The per-track log line the batch loop of `main` emits
(main.rs lines 58-71): a hit, an explicit no-match, or a logged
warning that skips the track. -/
inductive TrackOutcome where
  | hit : ℚ → ℕ → TrackOutcome
  | noMatch : TrackOutcome
  | skipped : TrackOutcome
deriving DecidableEq, Repr

/-- The batch scan loop of `main` (main.rs lines 56-73): each track's
`find_matches` outcome (`Err` = any per-track decode/conversion/cache/
matching failure) is converted to its log line; an `Err` becomes a
warning + skip and the loop continues with the remaining tracks. -/
def scan_tracks (results : List (Except String (Option (ℚ × ℕ)))) : List TrackOutcome :=
  results.map (fun r =>
    match r with
    | .ok (some (o, c)) => .hit o c
    | .ok none => .noMatch
    | .error _ => .skipped)

/-- `var` (main.rs lines 79-81): read an environment variable or fail
with `Missing env var` (the error carries the key). -/
def var (env : List (String × String)) (key : String) : Except String String :=
  match env.lookup key with
  | some v => .ok v
  | none => .error key

/-- The environment variables `main` requires before any track work
(main.rs lines 23-28). -/
def required_vars : List String :=
  ["MUSIC_DIR", "SAMPLE_PATH", "SAMPLE_BEGIN", "SAMPLE_END"]

/-- Control-flow skeleton of `main` (main.rs lines 19-76): read the four
required environment variables (each `?` aborts the run with the missing
key before any track is processed), then run the batch scan loop over the
per-track results. The decoding/snippet preparation between the two
phases is irrelevant to the error-propagation claims and elided. -/
def run_main (env : List (String × String))
    (results : List (Except String (Option (ℚ × ℕ)))) :
    Except String (List TrackOutcome) :=
  (var env "MUSIC_DIR").bind (fun _ =>
    (var env "SAMPLE_PATH").bind (fun _ =>
      (var env "SAMPLE_BEGIN").bind (fun _ =>
        (var env "SAMPLE_END").bind (fun _ =>
          .ok (scan_tracks results)))))

/-! ### Lemmas about the landmark matcher -/

lemma le_foldr_max {L : List ℕ} {x : ℕ} (hx : x ∈ L) : x ≤ L.foldr max 0 := by
  induction L with
  | nil => cases hx
  | cons a L ih =>
    rcases List.mem_cons.mp hx with h | h
    · subst h; exact le_max_left _ _
    · exact le_trans (ih h) (le_max_right _ _)

lemma foldr_max_mem {L : List ℕ} (h : L ≠ []) : L.foldr max 0 ∈ L := by
  induction L with
  | nil => exact absurd rfl h
  | cons a L ih =>
    cases L with
    | nil => simp
    | cons b L =>
      rcases max_choice a ((b :: L).foldr max 0) with hm | hm
      · simp only [List.foldr_cons] at *
        rw [hm]; exact List.mem_cons_self _ _
      · simp only [List.foldr_cons] at *
        rw [hm]; exact List.mem_cons_of_mem _ (ih (by simp))

lemma count_le_max_collision {l : List ℤ} {d : ℤ} (hd : d ∈ l) :
    l.count d ≤ max_collision_count l :=
  le_foldr_max (List.mem_map.mpr ⟨d, hd, rfl⟩)

lemma max_collision_attained {l : List ℤ} (h : l ≠ []) :
    ∃ d ∈ l, l.count d = max_collision_count l := by
  have hne : l.map (fun d => l.count d) ≠ [] := by
    simpa using h
  rcases List.mem_map.mp (foldr_max_mem hne) with ⟨d, hd, hc⟩
  exact ⟨d, hd, hc⟩

lemma best_step_none (l : List ℤ) (d : ℤ) :
    best_step l none d = some (d, l.count d) := rfl

lemma best_step_some (l : List ℤ) (d0 : ℤ) (c0 : ℕ) (d : ℤ) :
    best_step l (some (d0, c0)) d =
      if l.count d > c0 then some (d, l.count d) else some (d0, c0) := rfl

lemma best_offset_aux (l : List ℤ) :
    ∀ (ds : List ℤ), (∀ x ∈ ds, x ∈ l) →
    ∀ (acc : Option (ℤ × ℕ)),
      (∀ d0 c0, acc = some (d0, c0) → d0 ∈ l ∧ c0 = l.count d0) →
    ∀ d c, ds.foldl (best_step l) acc = some (d, c) →
      (d ∈ l ∧ c = l.count d) ∧ (∀ x ∈ ds, l.count x ≤ c) ∧
        (∀ d0 c0, acc = some (d0, c0) → c0 ≤ c) := by
  intro ds
  induction ds with
  | nil =>
    intro _ acc hacc d c h
    simp only [List.foldl_nil] at h
    refine ⟨hacc d c h, by simp, ?_⟩
    intro d0 c0 h0
    rw [h0] at h
    cases h
    exact le_refl _
  | cons a tl ih =>
    intro hds acc hacc d c h
    simp only [List.foldl_cons] at h
    have hds' : ∀ x ∈ tl, x ∈ l := fun x hx => hds x (List.mem_cons_of_mem _ hx)
    have ha_mem : a ∈ l := hds a (List.mem_cons_self _ _)
    have key : ∀ d1 c1, best_step l acc a = some (d1, c1) →
        (d1 ∈ l ∧ c1 = l.count d1) ∧ l.count a ≤ c1 ∧
          (∀ d0 c0, acc = some (d0, c0) → c0 ≤ c1) := by
      intro d1 c1 hstep
      cases acc with
      | none =>
        rw [best_step_none] at hstep
        cases hstep
        exact ⟨⟨ha_mem, rfl⟩, le_refl _, fun d0 c0 h0 => by cases h0⟩
      | some p =>
        rcases p with ⟨d2, c2⟩
        rw [best_step_some] at hstep
        by_cases hgt : l.count a > c2
        · rw [if_pos hgt] at hstep
          cases hstep
          exact ⟨⟨ha_mem, rfl⟩, le_refl _,
            fun d0 c0 h0 => by cases h0; exact le_of_lt hgt⟩
        · rw [if_neg hgt] at hstep
          cases hstep
          exact ⟨hacc _ _ rfl, not_lt.mp hgt,
            fun d0 c0 h0 => by cases h0; exact le_refl _⟩
    rcases hstep : best_step l acc a with _ | ⟨d1, c1⟩
    · exfalso
      cases acc with
      | none => rw [best_step_none] at hstep; cases hstep
      | some p =>
        rcases p with ⟨d2, c2⟩
        rw [best_step_some] at hstep
        by_cases hgt : l.count a > c2
        · rw [if_pos hgt] at hstep; cases hstep
        · rw [if_neg hgt] at hstep; cases hstep
    · rcases key d1 c1 hstep with ⟨hd1, hca1, hbound1⟩
      rw [hstep] at h
      rcases ih hds' (some (d1, c1)) (fun d0 c0 h0 => by cases h0; exact hd1) d c h with
        ⟨hdc, htl, hbound⟩
      have hc1 : c1 ≤ c := hbound d1 c1 rfl
      refine ⟨hdc, ?_, ?_⟩
      · intro x hx
        rcases List.mem_cons.mp hx with rfl | hmem
        · exact le_trans hca1 hc1
        · exact htl x hmem
      · intro d0 c0 h0
        exact le_trans (hbound1 d0 c0 h0) hc1

lemma best_offset_spec {l : List ℤ} {d : ℤ} {c : ℕ}
    (h : best_offset l = some (d, c)) :
    d ∈ l ∧ c = l.count d ∧ ∀ x ∈ l, l.count x ≤ c := by
  have := best_offset_aux l l.dedup (fun x hx => (List.mem_dedup).mp hx) none
    (by intro d0 c0 h0; cases h0) d c h
  exact ⟨this.1.1, this.1.2, fun x hx => this.2.1 x ((List.mem_dedup).mpr hx)⟩

lemma best_offset_isSome {l : List ℤ} (h : l ≠ []) :
    ∃ d c, best_offset l = some (d, c) := by
  have hstay : ∀ (ds : List ℤ) (acc : Option (ℤ × ℕ)), acc.isSome →
      (ds.foldl (best_step l) acc).isSome := by
    intro ds
    induction ds with
    | nil => intro acc hacc; simpa using hacc
    | cons a tl ih =>
      intro acc hacc
      rcases Option.isSome_iff_exists.mp hacc with ⟨⟨d0, c0⟩, rfl⟩
      simp only [List.foldl_cons]
      rw [best_step_some]
      by_cases hgt : l.count a > c0
      · rw [if_pos hgt]; exact ih _ rfl
      · rw [if_neg hgt]; exact ih _ rfl
  rcases List.exists_mem_of_ne_nil l h with ⟨x, hx⟩
  have hdne : l.dedup ≠ [] := by
    intro hnil
    exact (List.not_mem_nil x) (hnil ▸ (List.mem_dedup).mpr hx)
  rcases List.exists_cons_of_ne_nil hdne with ⟨a, tl, htl⟩
  have : (best_offset l).isSome := by
    unfold best_offset
    rw [htl]
    simp only [List.foldl_cons]
    rw [best_step_none]
    exact hstay tl _ rfl
  rcases Option.isSome_iff_exists.mp this with ⟨⟨d, c⟩, hd⟩
  exact ⟨d, c, hd⟩

lemma best_offset_max {l : List ℤ} {d : ℤ} {c : ℕ}
    (h : best_offset l = some (d, c)) :
    c = max_collision_count l ∧ d ∈ l ∧ c = l.count d := by
  rcases best_offset_spec h with ⟨hmem, hcnt, hle⟩
  have hne : l ≠ [] := fun hnil => by simp [hnil] at hmem
  refine ⟨le_antisymm ?_ ?_, hmem, hcnt⟩
  · rw [hcnt]; exact count_le_max_collision hmem
  · rcases max_collision_attained hne with ⟨d0, hd0, hc0⟩
    rw [← hc0]; exact hle d0 hd0

lemma mem_offset_diffs {s t : FingerprintData} {x : ℤ} :
    x ∈ offset_diffs s t ↔
      ∃ se ∈ s.pairs, ∃ te ∈ t.pairs, entryKey te = entryKey se ∧
        x = i32_wrap (u32_as_i32 te.anchor_time - u32_as_i32 se.anchor_time) := by
  unfold offset_diffs
  rw [List.mem_flatMap]
  constructor
  · rintro ⟨se, hse, hx2⟩
    rw [List.mem_map] at hx2
    rcases hx2 with ⟨ta, hta, hxe⟩
    unfold track_times at hta
    rw [List.mem_map] at hta
    rcases hta with ⟨te, hte2, hanch⟩
    rw [List.mem_filter] at hte2
    exact ⟨se, hse, te, hte2.1, of_decide_eq_true hte2.2, by rw [← hxe, hanch]⟩
  · rintro ⟨se, hse, te, hte, hkey, rfl⟩
    refine ⟨se, hse, ?_⟩
    rw [List.mem_map]
    refine ⟨te.anchor_time, ?_, rfl⟩
    unfold track_times
    rw [List.mem_map]
    exact ⟨te, List.mem_filter.mpr ⟨hte, decide_eq_true hkey⟩, rfl⟩

lemma offset_diffs_ne_nil_iff (s t : FingerprintData) :
    offset_diffs s t ≠ [] ↔
      ∃ se ∈ s.pairs, ∃ te ∈ t.pairs, entryKey se = entryKey te := by
  constructor
  · intro hne
    rcases List.exists_mem_of_ne_nil _ hne with ⟨x, hx⟩
    rcases mem_offset_diffs.mp hx with ⟨se, hse, te, hte, hkey, _⟩
    exact ⟨se, hse, te, hte, hkey.symm⟩
  · rintro ⟨se, hse, te, hte, hkey⟩ hnil
    have hmem : i32_wrap (u32_as_i32 te.anchor_time - u32_as_i32 se.anchor_time) ∈
        offset_diffs s t :=
      mem_offset_diffs.mpr ⟨se, hse, te, hte, hkey.symm, rfl⟩
    rw [hnil] at hmem
    exact List.not_mem_nil _ hmem

lemma find_matches_isSome_iff (s t : FingerprintData) (sr : ℕ) :
    (∃ p, find_matches s t sr = some p) ↔
      (offset_diffs s t ≠ [] ∧ 5 < max_collision_count (offset_diffs s t)) := by
  unfold find_matches
  rcases hbo : best_offset (offset_diffs s t) with _ | ⟨d, c⟩
  · constructor
    · rintro ⟨p, hp⟩; cases hp
    · rintro ⟨hne, _⟩
      rcases best_offset_isSome hne with ⟨d, c, hd⟩
      rw [hbo] at hd
      cases hd
  · dsimp only
    rcases best_offset_max hbo with ⟨hcmax, hmem, _⟩
    have hne : offset_diffs s t ≠ [] := fun hnil => by simp [hnil] at hmem
    by_cases hc : c > 5
    · rw [if_pos hc]
      exact ⟨fun _ => ⟨hne, hcmax ▸ hc⟩, fun _ => ⟨_, rfl⟩⟩
    · rw [if_neg hc]
      constructor
      · rintro ⟨p, hp⟩; cases hp
      · rintro ⟨_, hmax⟩
        exact absurd (hcmax ▸ hmax) hc

lemma find_matches_eq_some {s t : FingerprintData} {sr : ℕ} {sec : ℚ} {c : ℕ}
    (h : find_matches s t sr = some (sec, c)) :
    c = max_collision_count (offset_diffs s t) ∧
      ∃ d : ℤ, (offset_diffs s t).count d = c ∧ sec = (d : ℚ) * 512 / (sr : ℚ) := by
  unfold find_matches at h
  rcases hbo : best_offset (offset_diffs s t) with _ | ⟨d, c0⟩ <;> rw [hbo] at h
  · exact Option.noConfusion h
  · have h2 : (if c0 > 5 then some ((d : ℚ) * ((512 : ℚ) / (sr : ℚ)), c0) else none) =
        some (sec, c) := h
    by_cases hc : c0 > 5
    · rw [if_pos hc] at h2
      simp only [Option.some.injEq, Prod.mk.injEq] at h2
      rcases best_offset_max hbo with ⟨hcmax, _, hcnt⟩
      refine ⟨h2.2 ▸ hcmax, d, by rw [← h2.2, ← hcnt], ?_⟩
      rw [← h2.1, mul_div_assoc]
    · rw [if_neg hc] at h2
      exact Option.noConfusion h2

/-! ### Lemmas for the self-match property -/

lemma filter_key_eq_single {l : List FPHashEntry} {e : FPHashEntry}
    (he : e ∈ l) (h : (l.map entryKey).Nodup) :
    l.filter (fun x => entryKey x = entryKey e) = [e] := by
  induction l with
  | nil => cases he
  | cons a tl ih =>
    rw [List.map_cons, List.nodup_cons] at h
    rcases List.mem_cons.mp he with rfl | hmem
    · have htl : tl.filter (fun x => entryKey x = entryKey e) = [] := by
        rw [List.filter_eq_nil_iff]
        intro x hx
        simp only [decide_eq_true_eq]
        intro hkey
        exact h.1 (List.mem_map.mpr ⟨x, hx, hkey⟩)
      simp [List.filter_cons, htl]
    · have hne : entryKey a ≠ entryKey e := by
        intro hkey
        exact h.1 (List.mem_map.mpr ⟨e, hmem, hkey.symm⟩)
      rw [List.filter_cons, if_neg (by simp [hne])]
      exact ih hmem h.2

lemma flatMap_const_singleton {α β : Type _} (l : List α) (b : β) :
    (l.flatMap (fun _ => [b])) = List.replicate l.length b := by
  induction l with
  | nil => rfl
  | cons a tl ih => simp [List.flatMap_cons, ih, List.replicate_succ]

lemma flatMap_congr_mem {α β : Type _} {l : List α} {f g : α → List β}
    (h : ∀ a ∈ l, f a = g a) : l.flatMap f = l.flatMap g := by
  induction l with
  | nil => rfl
  | cons a tl ih =>
    rw [List.flatMap_cons, List.flatMap_cons, h a (List.mem_cons_self _ _),
      ih (fun x hx => h x (List.mem_cons_of_mem _ hx))]

lemma i32_wrap_zero : i32_wrap 0 = 0 := by decide

lemma offset_diffs_self {fp : FingerprintData}
    (h : (fp.pairs.map entryKey).Nodup) :
    offset_diffs fp fp = List.replicate fp.pairs.length (0 : ℤ) := by
  unfold offset_diffs
  have hpt : ∀ se ∈ fp.pairs,
      (track_times fp (entryKey se)).map
          (fun (ta : ℕ) => i32_wrap (u32_as_i32 ta - u32_as_i32 se.anchor_time)) =
        [(0 : ℤ)] := by
    intro se hse
    unfold track_times
    rw [filter_key_eq_single hse h]
    simp [i32_wrap_zero]
  calc fp.pairs.flatMap
        (fun se => (track_times fp (entryKey se)).map
          (fun (ta : ℕ) => i32_wrap (u32_as_i32 ta - u32_as_i32 se.anchor_time)))
      = fp.pairs.flatMap (fun _ => [(0 : ℤ)]) := flatMap_congr_mem hpt
    _ = List.replicate fp.pairs.length (0 : ℤ) := flatMap_const_singleton _ _

lemma find_matches_eval {s t : FingerprintData} {sr : ℕ} {d : ℤ} {c : ℕ}
    (hbo : best_offset (offset_diffs s t) = some (d, c)) (hc : 5 < c) :
    find_matches s t sr = some ((d : ℚ) * ((512 : ℚ) / (sr : ℚ)), c) := by
  unfold find_matches
  rw [hbo]
  dsimp only
  rw [if_pos hc]

lemma find_matches_eval_none {s t : FingerprintData} {sr : ℕ} {d : ℤ} {c : ℕ}
    (hbo : best_offset (offset_diffs s t) = some (d, c)) (hc : ¬5 < c) :
    find_matches s t sr = none := by
  unfold find_matches
  rw [hbo]
  dsimp only
  rw [if_neg hc]

/-- Wrap-fidelity check on the casts of line 308: a track anchor time of
`2^32 − 1` casts to `i32` value `−1`, so against snippet anchors 0 and 1
the three votes from each side merge at offset `−1`, reach count 6, and
clear the `> 5` threshold. -/
lemma find_matches_wrapped_votes_merge :
    find_matches ⟨[⟨1, 2, 3, 0⟩, ⟨1, 2, 3, 1⟩]⟩
        ⟨[⟨1, 2, 3, 4294967295⟩, ⟨1, 2, 3, 4294967295⟩, ⟨1, 2, 3, 4294967295⟩,
          ⟨1, 2, 3, 0⟩, ⟨1, 2, 3, 0⟩, ⟨1, 2, 3, 0⟩]⟩ 48000 =
      some (((-1 : ℤ) : ℚ) * ((512 : ℚ) / ((48000 : ℕ) : ℚ)), 6) :=
  @find_matches_eval ⟨[⟨1, 2, 3, 0⟩, ⟨1, 2, 3, 1⟩]⟩
    ⟨[⟨1, 2, 3, 4294967295⟩, ⟨1, 2, 3, 4294967295⟩, ⟨1, 2, 3, 4294967295⟩,
      ⟨1, 2, 3, 0⟩, ⟨1, 2, 3, 0⟩, ⟨1, 2, 3, 0⟩]⟩ 48000 (-1) 6
    (by decide) (by norm_num)

lemma dedup_replicate_zero {n : ℕ} (h : 0 < n) :
    (List.replicate n (0 : ℤ)).dedup = [0] := by
  induction n with
  | zero => cases h
  | succ m ih =>
    cases Nat.eq_zero_or_pos m with
    | inl h0 => subst h0; rfl
    | inr hm =>
      rw [List.replicate_succ, List.dedup_cons_of_mem (by simp [List.mem_replicate, Nat.pos_iff_ne_zero.mp hm])]
      exact ih hm

lemma best_offset_replicate_zero {n : ℕ} (h : 0 < n) :
    best_offset (List.replicate n (0 : ℤ)) = some (0, n) := by
  unfold best_offset
  rw [dedup_replicate_zero h]
  simp only [List.foldl_cons, List.foldl_nil, best_step_none]
  rw [List.count_replicate_self]

/-! ### Claim theorems: the landmark matcher (C2, C4, C6) -/

/-- Claim C2: for every snippet fingerprint and track fingerprint, the
landmark matcher returns `Some (offset_seconds, count)` iff at least one
`(f1, f2, delta_t)` key of the snippet collides with the track and the
highest per-offset collision count strictly exceeds 5 (so a winning count
of exactly 5 yields no match); the returned `offset_seconds` equals
`winning_offset_frames × 512 / sample_rate` where the winning offset is a
`track_anchor_time as i32 − snippet_anchor_time as i32` difference
(possibly negative; the program computes it with wrapping `u32 → i32`
casts, line 308) with the highest collision count. -/
theorem find_matches_characterization (s t : FingerprintData) (sr : ℕ) :
    ((∃ p, find_matches s t sr = some p) ↔
      ((∃ se ∈ s.pairs, ∃ te ∈ t.pairs, entryKey se = entryKey te) ∧
        5 < max_collision_count (offset_diffs s t))) ∧
    (∀ (sec : ℚ) (c : ℕ), find_matches s t sr = some (sec, c) →
      c = max_collision_count (offset_diffs s t) ∧
      ∃ d : ℤ, (offset_diffs s t).count d = c ∧
        (∃ se ∈ s.pairs, ∃ te ∈ t.pairs, entryKey te = entryKey se ∧
          d = i32_wrap (u32_as_i32 te.anchor_time - u32_as_i32 se.anchor_time)) ∧
        sec = (d : ℚ) * 512 / (sr : ℚ)) := by
  constructor
  · rw [find_matches_isSome_iff, offset_diffs_ne_nil_iff]
  · intro sec c h
    rcases find_matches_eq_some h with ⟨hc, d, hcount, hsec⟩
    have h5 : 5 < max_collision_count (offset_diffs s t) :=
      ((find_matches_isSome_iff s t sr).mp ⟨_, h⟩).2
    have hpos : 0 < (offset_diffs s t).count d := by
      rw [hcount, hc]
      omega
    rcases mem_offset_diffs.mp (List.count_pos_iff.mp hpos) with
      ⟨se, hse, te, hte, hkey, hd⟩
    exact ⟨hc, d, hcount, ⟨se, hse, te, hte, hkey, hd⟩, hsec⟩

/-- Witness for C2 at a concrete input: two identical 6-entry
fingerprints sharing one key collide 6 times at offset 0. -/
theorem find_matches_characterization_witness :
    find_matches ⟨(List.range 6).map (fun i => ⟨1, 2, 3, i⟩)⟩
        ⟨(List.range 6).map (fun i => ⟨1, 2, 3, i⟩)⟩ 48000 = some (0, 6) ∧
      (6 = max_collision_count
          (offset_diffs ⟨(List.range 6).map (fun i => ⟨1, 2, 3, i⟩)⟩
            ⟨(List.range 6).map (fun i => ⟨1, 2, 3, i⟩)⟩) ∧
        ∃ d : ℤ,
          (offset_diffs ⟨(List.range 6).map (fun i => ⟨1, 2, 3, i⟩)⟩
              ⟨(List.range 6).map (fun i => ⟨1, 2, 3, i⟩)⟩).count d = 6 ∧
            (∃ se ∈ (FingerprintData.mk ((List.range 6).map
                (fun i => ⟨1, 2, 3, i⟩))).pairs,
              ∃ te ∈ (FingerprintData.mk ((List.range 6).map
                  (fun i => ⟨1, 2, 3, i⟩))).pairs,
                entryKey te = entryKey se ∧
                d = i32_wrap (u32_as_i32 te.anchor_time -
                  u32_as_i32 se.anchor_time)) ∧
            (0 : ℚ) = (d : ℚ) * 512 / ((48000 : ℕ) : ℚ)) := by
  have h6 : find_matches ⟨(List.range 6).map (fun i => ⟨1, 2, 3, i⟩)⟩
      ⟨(List.range 6).map (fun i => ⟨1, 2, 3, i⟩)⟩ 48000 = some (0, 6) := by
    have h := @find_matches_eval ⟨(List.range 6).map (fun i => ⟨1, 2, 3, i⟩)⟩
      ⟨(List.range 6).map (fun i => ⟨1, 2, 3, i⟩)⟩ 48000 0 6 (by decide) (by norm_num)
    simpa using h
  exact ⟨h6,
    (find_matches_characterization ⟨(List.range 6).map (fun i => ⟨1, 2, 3, i⟩)⟩
      ⟨(List.range 6).map (fun i => ⟨1, 2, 3, i⟩)⟩ 48000).2 0 6 h6⟩

/-- Counterexample to claim C4 as stated: a fingerprint with one Hash
Entry self-matches with collision count 1 ≤ 5, so `find_matches` returns
`none`, not a match — the "strictly greater than the acceptance threshold
for any fingerprint with ≥ 1 Hash Entry" part of the claim is false. -/
theorem self_match_single_entry_none :
    (FingerprintData.mk [⟨1, 2, 3, 0⟩]).pairs ≠ [] ∧
      find_matches ⟨[⟨1, 2, 3, 0⟩]⟩ ⟨[⟨1, 2, 3, 0⟩]⟩ 48000 = none :=
  ⟨by decide,
    @find_matches_eval_none ⟨[⟨1, 2, 3, 0⟩]⟩ ⟨[⟨1, 2, 3, 0⟩]⟩ 48000 0 1
      (by decide) (by norm_num)⟩

/-- Claim C4 (amended): for a fingerprint whose entries carry pairwise
distinct `(f1, f2, delta_t)` keys, self-matching votes only at offset 0
with collision count equal to the number of entries (= matched keys), so
`find_matches fp fp` returns `Some (0.0, n)` when `n > 5` and `none`
otherwise — in particular a fingerprint with 1 to 5 entries yields no
match despite perfect self-similarity. -/
theorem find_matches_self_nodup (fp : FingerprintData)
    (h : (fp.pairs.map entryKey).Nodup) (sr : ℕ) :
    find_matches fp fp sr =
      if 5 < fp.pairs.length then some (0, fp.pairs.length) else none := by
  have hd := offset_diffs_self h
  unfold find_matches
  rw [hd]
  rcases Nat.eq_zero_or_pos fp.pairs.length with h0 | hpos
  · rw [h0]
    rfl
  · rw [best_offset_replicate_zero hpos]
    dsimp only
    by_cases hn : fp.pairs.length > 5
    · rw [if_pos hn, if_pos hn]
      norm_num
    · rw [if_neg hn, if_neg hn]

/-- Witness for the amended C4 at a concrete input: a 6-entry
fingerprint with distinct keys self-matches at offset 0 with count 6. -/
theorem find_matches_self_nodup_witness :
    ((FingerprintData.mk ((List.range 6).map (fun i => ⟨i, 0, 1, i⟩))).pairs.map
        entryKey).Nodup ∧
      find_matches ⟨(List.range 6).map (fun i => ⟨i, 0, 1, i⟩)⟩
        ⟨(List.range 6).map (fun i => ⟨i, 0, 1, i⟩)⟩ 48000 = some (0, 6) := by
  refine ⟨by decide, ?_⟩
  have h := find_matches_self_nodup ⟨(List.range 6).map (fun i => ⟨i, 0, 1, i⟩)⟩
    (by decide) 48000
  simpa using h

/-- Counterexample to claim C6 as stated: a snippet whose frame span
(1000) exceeds the track's (5) still produces `Some` — the matcher has
no snippet-duration check. -/
theorem long_snippet_still_matches :
    frame_span ⟨(List.range 6).map (fun i => ⟨i, 0, 1, i⟩) ++ [⟨100, 100, 1, 1000⟩]⟩ >
        frame_span ⟨(List.range 6).map (fun i => ⟨i, 0, 1, i⟩)⟩ ∧
      find_matches ⟨(List.range 6).map (fun i => ⟨i, 0, 1, i⟩) ++ [⟨100, 100, 1, 1000⟩]⟩
        ⟨(List.range 6).map (fun i => ⟨i, 0, 1, i⟩)⟩ 48000 = some (0, 6) := by
  refine ⟨by decide, ?_⟩
  have h := @find_matches_eval
    ⟨(List.range 6).map (fun i => ⟨i, 0, 1, i⟩) ++ [⟨100, 100, 1, 1000⟩]⟩
    ⟨(List.range 6).map (fun i => ⟨i, 0, 1, i⟩)⟩ 48000 0 6 (by decide) (by norm_num)
  simpa using h

/-- Claim C6 (amended): the landmark matcher applies no snippet-duration
check — even when the snippet's frame span exceeds the track's, the
result is decided solely by collision voting (`none` iff no key collides
or the winning count is ≤ 5), and no error is raised. -/
theorem find_matches_no_duration_check (s t : FingerprintData) (sr : ℕ)
    (hspan : frame_span t < frame_span s) :
    find_matches s t sr = none ↔
      ((¬∃ se ∈ s.pairs, ∃ te ∈ t.pairs, entryKey se = entryKey te) ∨
        max_collision_count (offset_diffs s t) ≤ 5) := by
  have hiff := find_matches_isSome_iff s t sr
  rw [offset_diffs_ne_nil_iff] at hiff
  constructor
  · intro hnone
    by_contra hcon
    push_neg at hcon
    rcases hiff.mpr ⟨hcon.1, hcon.2⟩ with ⟨p, hp⟩
    rw [hnone] at hp
    cases hp
  · intro hor
    rcases hfm : find_matches s t sr with _ | p
    · rfl
    · exfalso
      have hmem := hiff.mp ⟨p, hfm⟩
      rcases hor with hnc | hle
      · exact hnc hmem.1
      · exact (Nat.not_lt.mpr hle) hmem.2

/-- Witness for the amended C6 at a concrete input: snippet span 10 >
track span 0, no key collision, matcher returns `none`. -/
theorem find_matches_no_duration_check_witness :
    frame_span ⟨[⟨2, 2, 2, 0⟩]⟩ < frame_span ⟨[⟨1, 1, 1, 10⟩]⟩ ∧
      (find_matches ⟨[⟨1, 1, 1, 10⟩]⟩ ⟨[⟨2, 2, 2, 0⟩]⟩ 48000 = none ↔
        ((¬∃ se ∈ (FingerprintData.mk [⟨1, 1, 1, 10⟩]).pairs,
            ∃ te ∈ (FingerprintData.mk [⟨2, 2, 2, 0⟩]).pairs,
              entryKey se = entryKey te) ∨
          max_collision_count
            (offset_diffs ⟨[⟨1, 1, 1, 10⟩]⟩ ⟨[⟨2, 2, 2, 0⟩]⟩) ≤ 5)) :=
  ⟨by decide, find_matches_no_duration_check ⟨[⟨1, 1, 1, 10⟩]⟩ ⟨[⟨2, 2, 2, 0⟩]⟩
    48000 (by decide)⟩

/-! ### Claim theorems: fingerprint pairing (C5) -/

/-- Counterexample to claim C5 as stated: with a peak at frame 0 and the
next peak at frame 9, `makePairs` emits an entry with `delta_t = 9`,
contradicting the claimed bound `1 ≤ delta_t ≤ 8`: the source iterates
`future_t` over the half-open range `(t+1)..(t+10)`, which reaches
`t + 9`. -/
theorem makePairs_delta_nine :
    ∃ e ∈ makePairs [[1], [], [], [], [], [], [], [], [], [2]], 8 < e.delta_t := by
  decide

/-- Claim C5 (amended): every Hash Entry emitted by the pairing stage
pairs a selected peak `f1` of frame `t` only with a peak `f2` selected in
some frame `ft ∈ [t+1, t+9]` (so `1 ≤ delta_t ≤ 9`), takes at most
`fan_value = 5` peaks from each such future frame (`f2` comes from the
first five peaks of its frame), and records `anchor_time = t` (as `u32`)
and `delta_t = ft − t` (as `u16`). -/
theorem makePairs_sound (pbt : List (List ℕ)) (e : FPHashEntry)
    (h : e ∈ makePairs pbt) :
    ∃ t < pbt.length, e.anchor_time = t % 4294967296 ∧ e.f1 ∈ pbt.getD t [] ∧
      ∃ ft, t < ft ∧ ft ≤ t + 9 ∧ ft < pbt.length ∧
        e.delta_t = (ft - t) % 65536 ∧ 1 ≤ ft - t ∧ ft - t ≤ 9 ∧
        e.f2 ∈ (pbt.getD ft []).take fan_value := by
  unfold makePairs at h
  rcases List.mem_flatMap.mp h with ⟨t, ht, h2⟩
  rw [List.mem_range] at ht
  rcases List.mem_flatMap.mp h2 with ⟨f1, hf1, h3⟩
  rcases List.mem_flatMap.mp h3 with ⟨ft, hft, h4⟩
  rcases List.mem_map.mp h4 with ⟨f2, hf2, he⟩
  rw [List.mem_range'_1] at hft
  have hft2 : ft < min (t + 10) pbt.length := by omega
  have hlt : ft < pbt.length := lt_of_lt_of_le hft2 (min_le_right _ _)
  have hle9 : ft ≤ t + 9 := by
    have := lt_of_lt_of_le hft2 (min_le_left _ _)
    omega
  subst he
  exact ⟨t, ht, rfl, hf1, ft, by omega, hle9, hlt, rfl, by omega, by omega, hf2⟩

/-- Witness for the amended C5 at a concrete input. -/
theorem makePairs_sound_witness :
    ((⟨3, 4, 1, 0⟩ : FPHashEntry) ∈ makePairs [[3], [4]]) ∧
      ∃ t < ([[3], [4]] : List (List ℕ)).length,
        (⟨3, 4, 1, 0⟩ : FPHashEntry).anchor_time = t % 4294967296 ∧
        (⟨3, 4, 1, 0⟩ : FPHashEntry).f1 ∈ ([[3], [4]] : List (List ℕ)).getD t [] ∧
        ∃ ft, t < ft ∧ ft ≤ t + 9 ∧ ft < ([[3], [4]] : List (List ℕ)).length ∧
          (⟨3, 4, 1, 0⟩ : FPHashEntry).delta_t = (ft - t) % 65536 ∧
          1 ≤ ft - t ∧ ft - t ≤ 9 ∧
          (⟨3, 4, 1, 0⟩ : FPHashEntry).f2 ∈
            (([[3], [4]] : List (List ℕ)).getD ft []).take fan_value :=
  ⟨by decide, makePairs_sound [[3], [4]] ⟨3, 4, 1, 0⟩ (by decide)⟩

/-! ### Claim theorems: spectrogram on short input (C1) -/

lemma mapO_none_of_mem {α β : Type _} {f : α → Option β} {l : List α} (a : α)
    (ha : a ∈ l) (hf : f a = none) : mapO f l = none := by
  induction l with
  | nil => cases ha
  | cons b tl ih =>
    rcases List.mem_cons.mp ha with rfl | hmem
    · unfold mapO
      rw [hf]
    · unfold mapO
      rw [ih hmem]
      rcases f b with _ | v <;> rfl

/-- Claim C1 is a code bug: for PCM shorter than the window the source
computes `n_hops = saturating_sub(len, window)/hop + 1 = 1` (not the
specified 0), and the frame-fill loop then indexes `pcm[0..window)` out
of bounds and panics — modelled here by `compute_spectrogram` returning
`none` (instead of a spectrogram with zero time-frames). -/
theorem compute_spectrogram_short_input_panics (pcm : List ℝ) (sr W H : ℕ)
    (hshort : pcm.length < W) (hH : 0 < H) :
    compute_spectrogram pcm sr W H = none := by
  unfold compute_spectrogram
  rw [if_neg (Nat.pos_iff_ne_zero.mp hH)]
  dsimp only
  have hsub : pcm.length - W = 0 := Nat.sub_eq_zero_of_le (le_of_lt hshort)
  rw [hsub, Nat.zero_div]
  have hinner :
      mapO (fun i => (pcm.get? (0 * H + i)).map
          (fun x => ((x * window_func W i : ℝ) : ℂ))) (List.range W) = none := by
    apply mapO_none_of_mem pcm.length (List.mem_range.mpr hshort)
    dsimp only
    have hnone : pcm.get? (0 * H + pcm.length) = none := by
      rw [List.get?_eq_none]
      omega
    rw [hnone]
    rfl
  have houter :
      mapO (fun hop_idx =>
          (mapO (fun i => (pcm.get? (hop_idx * H + i)).map
              (fun x => ((x * window_func W i : ℝ) : ℂ))) (List.range W)).map
            (fun buffer =>
              (List.range (W / 2)).map (fun k =>
                Real.sqrt
                  (((fftForward buffer).getD k 0).re * ((fftForward buffer).getD k 0).re +
                    ((fftForward buffer).getD k 0).im * ((fftForward buffer).getD k 0).im))))
        (List.range (0 + 1)) = none := by
    apply mapO_none_of_mem 0 (List.mem_range.mpr (by omega))
    dsimp only
    rw [hinner]
    rfl
  rw [houter]
  rfl

/-- Evaluation of the C1 failing input: a 3-sample PCM with window 4 and
hop 2 panics (the specification instead requires zero frames and no
panic). -/
theorem compute_spectrogram_short_input_panics_witness :
    (([1, 0, 0] : List ℝ).length < 4 ∧ (0 : ℕ) < 2) ∧
      compute_spectrogram [1, 0, 0] 48000 4 2 = none :=
  ⟨by constructor <;> decide,
    compute_spectrogram_short_input_panics [1, 0, 0] 48000 4 2 (by decide) (by decide)⟩

/-! ### The spectrogram on sufficient input (C3, C9) -/

lemma mapO_eq_some_map {α β : Type _} {f : α → Option β} {g : α → β} {l : List α}
    (h : ∀ a ∈ l, f a = some (g a)) : mapO f l = some (l.map g) := by
  induction l with
  | nil => rfl
  | cons a tl ih =>
    unfold mapO
    rw [h a (List.mem_cons_self _ _), ih (fun x hx => h x (List.mem_cons_of_mem _ hx))]
    rfl

lemma getD_map_range {β : Type _} (g : ℕ → β) {k n : ℕ} (hk : k < n) (d : β) :
    ((List.range n).map g).getD k d = g k := by
  rw [List.getD_eq_getElem?_getD, List.getElem?_map, List.getElem?_range hk]
  rfl

lemma getD_slice {l : List ℝ} {start W i : ℕ} (hi : i < W) :
    ((l.drop start).take W).getD i 0 = l.getD (start + i) 0 := by
  rw [List.getD_eq_getElem?_getD, List.getElem?_take, if_pos hi, List.getElem?_drop,
    List.getD_eq_getElem?_getD]

lemma frame_index_lt {L W H t i : ℕ} (hH : 0 < H) (hL : W ≤ L)
    (ht : t < (L - W) / H + 1) (hi : i < W) : t * H + i < L := by
  have h1 : t ≤ (L - W) / H := by omega
  have h2 : t * H ≤ (L - W) / H * H := Nat.mul_le_mul_right H h1
  have h3 : (L - W) / H * H ≤ L - W := Nat.div_mul_le_self _ _
  omega

lemma get?_eq_some_getD {α : Type _} {l : List α} {n : ℕ} (d : α) (h : n < l.length) :
    l.get? n = some (l.getD n d) := by
  rw [List.get?_eq_getElem?, List.getElem?_eq_getElem h, List.getD_eq_getElem?_getD,
    List.getElem?_eq_getElem h]
  rfl

/-- Master evaluation lemma: on sufficient input the spectrogram is
exactly the `(W/2) × ((L−W)/H + 1)` matrix whose `(f, t)` entry is the
windowed-DFT magnitude of the sample slice `[t·H, t·H + W)`. -/
lemma compute_spectrogram_spec (pcm : List ℝ) (sr W H : ℕ)
    (hH : 0 < H) (hL : W ≤ pcm.length) :
    compute_spectrogram pcm sr W H =
      some ((List.range (W / 2)).map (fun f =>
        (List.range ((pcm.length - W) / H + 1)).map (fun t =>
          frame_magnitude W ((pcm.drop (t * H)).take W) f))) := by
  unfold compute_spectrogram
  rw [if_neg (Nat.pos_iff_ne_zero.mp hH)]
  dsimp only
  have houter :
      mapO (fun hop_idx =>
          (mapO (fun i => (pcm.get? (hop_idx * H + i)).map
              (fun x => ((x * window_func W i : ℝ) : ℂ))) (List.range W)).map
            (fun buffer =>
              (List.range (W / 2)).map (fun k =>
                Real.sqrt
                  (((fftForward buffer).getD k 0).re * ((fftForward buffer).getD k 0).re +
                    ((fftForward buffer).getD k 0).im * ((fftForward buffer).getD k 0).im))))
        (List.range ((pcm.length - W) / H + 1)) =
      some ((List.range ((pcm.length - W) / H + 1)).map (fun t =>
        (List.range (W / 2)).map (fun k =>
          frame_magnitude W ((pcm.drop (t * H)).take W) k))) := by
    apply mapO_eq_some_map
    intro t htmem
    rw [List.mem_range] at htmem
    have hbuf :
        mapO (fun i => (pcm.get? (t * H + i)).map
            (fun x => ((x * window_func W i : ℝ) : ℂ))) (List.range W) =
        some ((List.range W).map (fun i =>
          ((((pcm.drop (t * H)).take W).getD i 0 * window_func W i : ℝ) : ℂ))) := by
      apply mapO_eq_some_map
      intro i himem
      rw [List.mem_range] at himem
      rw [get?_eq_some_getD 0 (frame_index_lt hH hL htmem himem), getD_slice himem]
      rfl
    rw [hbuf]
    rfl
  rw [houter, Option.map_some']
  congr 1
  apply List.map_congr_left
  intro f hf
  rw [List.mem_range] at hf
  rw [List.map_map]
  apply List.map_congr_left
  intro t _
  simp only [Function.comp]
  exact getD_map_range _ hf _

/-- Claim C3: for PCM of length ≥ `window_size` with positive window and
hop, the spectrogram has exactly `window_size / 2` frequency bins (rows),
exactly `⌊(len − window)/hop⌋ + 1` time-frames per row, and the `(f, t)`
entry is computed from the samples `[t·hop, t·hop + window)` alone (it is
the windowed-DFT magnitude of that slice). -/
theorem compute_spectrogram_shape (pcm : List ℝ) (sr W H : ℕ)
    (hW : 0 < W) (hH : 0 < H) (hL : W ≤ pcm.length) :
    ∃ S, compute_spectrogram pcm sr W H = some S ∧
      S.length = W / 2 ∧
      (∀ row ∈ S, row.length = (pcm.length - W) / H + 1) ∧
      ∀ f t, f < W / 2 → t < (pcm.length - W) / H + 1 →
        (S.getD f []).getD t 0 = frame_magnitude W ((pcm.drop (t * H)).take W) f := by
  refine ⟨_, compute_spectrogram_spec pcm sr W H hH hL, by simp, ?_, ?_⟩
  · intro row hrow
    rcases List.mem_map.mp hrow with ⟨f, _, rfl⟩
    simp
  · intro f t hf ht
    rw [getD_map_range _ hf, getD_map_range _ ht]

/-- Witness for C3 at a concrete input (`pcm = [1, 0]`, window 2, hop 1). -/
theorem compute_spectrogram_shape_witness :
    ((0 : ℕ) < 2 ∧ (0 : ℕ) < 1 ∧ 2 ≤ ([1, 0] : List ℝ).length) ∧
      ∃ S, compute_spectrogram [1, 0] 48000 2 1 = some S ∧
        S.length = 2 / 2 ∧
        (∀ row ∈ S, row.length = (([1, 0] : List ℝ).length - 2) / 1 + 1) ∧
        ∀ f t, f < 2 / 2 → t < (([1, 0] : List ℝ).length - 2) / 1 + 1 →
          (S.getD f []).getD t 0 =
            frame_magnitude 2 ((([1, 0] : List ℝ).drop (t * 1)).take 2) f :=
  ⟨⟨by decide, by decide, by decide⟩,
    compute_spectrogram_shape [1, 0] 48000 2 1 (by decide) (by decide) (by decide)⟩

/-- Claim C9: every recorded spectrogram value is
`sqrt(re² + im²)` of the corresponding output bin of the forward DFT of
the frame's samples multiplied pointwise by the Hann window
`0.5 − 0.5·cos(2π·i/window_size)`, and only the `window_size / 2` bins
below Nyquist are recorded (the row count is `window_size / 2`). -/
theorem compute_spectrogram_values (pcm : List ℝ) (sr W H : ℕ)
    (hW : 0 < W) (hH : 0 < H) (hL : W ≤ pcm.length) :
    ∃ S, compute_spectrogram pcm sr W H = some S ∧
      S.length = W / 2 ∧
      ∀ f t, f < W / 2 → t < (pcm.length - W) / H + 1 →
        (S.getD f []).getD t 0 =
          Real.sqrt
            ((∑ j in Finset.range W,
                (((pcm.getD (t * H + j) 0 *
                    (0.5 - 0.5 * Real.cos (2 * Real.pi * j / W)) : ℝ) : ℂ) *
                  Complex.exp (-(2 * Real.pi * Complex.I * j * f) / W)).re) ^ 2 +
              (∑ j in Finset.range W,
                (((pcm.getD (t * H + j) 0 *
                    (0.5 - 0.5 * Real.cos (2 * Real.pi * j / W)) : ℝ) : ℂ) *
                  Complex.exp (-(2 * Real.pi * Complex.I * j * f) / W)).im) ^ 2) := by
  refine ⟨_, compute_spectrogram_spec pcm sr W H hH hL, by simp, ?_⟩
  intro f t hf ht
  rw [getD_map_range _ hf, getD_map_range _ ht]
  have hfW : f < W := lt_of_lt_of_le hf (Nat.div_le_self W 2)
  unfold frame_magnitude
  dsimp only
  have hlen : ((List.range W).map (fun i =>
      ((((pcm.drop (t * H)).take W).getD i 0 * window_func W i : ℝ) : ℂ))).length = W := by
    rw [List.length_map, List.length_range]
  unfold fftForward
  rw [hlen]
  rw [getD_map_range _ hfW]
  have hsum : ∀ z : ℂ, z =
      ∑ j in Finset.range W,
        (((pcm.getD (t * H + j) 0 *
            (0.5 - 0.5 * Real.cos (2 * Real.pi * j / W)) : ℝ) : ℂ) *
          Complex.exp (-(2 * Real.pi * Complex.I * j * f) / W)) →
      Real.sqrt (z.re * z.re + z.im * z.im) =
      Real.sqrt
        ((∑ j in Finset.range W,
            (((pcm.getD (t * H + j) 0 *
                (0.5 - 0.5 * Real.cos (2 * Real.pi * j / W)) : ℝ) : ℂ) *
              Complex.exp (-(2 * Real.pi * Complex.I * j * f) / W)).re) ^ 2 +
          (∑ j in Finset.range W,
            (((pcm.getD (t * H + j) 0 *
                (0.5 - 0.5 * Real.cos (2 * Real.pi * j / W)) : ℝ) : ℂ) *
              Complex.exp (-(2 * Real.pi * Complex.I * j * f) / W)).im) ^ 2) := by
    intro z hz
    rw [hz, Complex.re_sum, Complex.im_sum, pow_two, pow_two]
  apply hsum
  apply Finset.sum_congr rfl
  intro j hj
  rw [Finset.mem_range] at hj
  rw [getD_map_range _ hj, getD_slice hj]
  unfold window_func
  rfl

/-- Witness for C9 at a concrete input (`pcm = [1, 0]`, window 2, hop 1). -/
theorem compute_spectrogram_values_witness :
    ((0 : ℕ) < 2 ∧ (0 : ℕ) < 1 ∧ 2 ≤ ([1, 0] : List ℝ).length) ∧
      ∃ S, compute_spectrogram [1, 0] 48000 2 1 = some S ∧
        S.length = 2 / 2 ∧
        ∀ f t, f < 2 / 2 → t < (([1, 0] : List ℝ).length - 2) / 1 + 1 →
          (S.getD f []).getD t 0 =
            Real.sqrt
              ((∑ j in Finset.range 2,
                  (((([1, 0] : List ℝ).getD (t * 1 + j) 0 *
                      (0.5 - 0.5 * Real.cos (2 * Real.pi * j / 2)) : ℝ) : ℂ) *
                    Complex.exp (-(2 * Real.pi * Complex.I * j * f) / 2)).re) ^ 2 +
                (∑ j in Finset.range 2,
                  (((([1, 0] : List ℝ).getD (t * 1 + j) 0 *
                      (0.5 - 0.5 * Real.cos (2 * Real.pi * j / 2)) : ℝ) : ℂ) *
                    Complex.exp (-(2 * Real.pi * Complex.I * j * f) / 2)).im) ^ 2) :=
  ⟨⟨by decide, by decide, by decide⟩,
    compute_spectrogram_values [1, 0] 48000 2 1 (by decide) (by decide) (by decide)⟩

/-! ### Claim theorems: fingerprint cache (C7) -/

lemma decodeEntry_encodeEntry (e : FPHashEntry) :
    decodeEntry (encodeEntry e) = some e := rfl

lemma mapO_decode_encode (l : List FPHashEntry) :
    mapO decodeEntry (l.map encodeEntry) = some l := by
  induction l with
  | nil => rfl
  | cons e tl ih =>
    rw [List.map_cons]
    unfold mapO
    rw [decodeEntry_encodeEntry, ih]

lemma decodeFingerprint_encodeFingerprint (d : FingerprintData) :
    decodeFingerprint (encodeFingerprint d) = some d := by
  unfold decodeFingerprint encodeFingerprint
  dsimp only [jLookup]
  rw [show (List.lookup "pairs" [("pairs", Jval.arr (d.pairs.map encodeEntry))] :
      Option Jval) = some (Jval.arr (d.pairs.map encodeEntry)) from rfl]
  dsimp only
  rw [mapO_decode_encode]
  rfl

lemma lookup_cons_self {v : Jval} (k : String) (fs : List (String × Jval)) :
    List.lookup k ((k, v) :: fs) = some v := by
  simp [List.lookup]

/-- Claim C7: on a missing cache key, `load_or_build_fingerprint` runs
the build path, persists the encoded fingerprint under
`<file_stem(track)>.json`, and returns the built fingerprint; a second
call with the same key then returns an identical fingerprint from the
persisted JSON (which round-trips to an equal `FingerprintData`) without
running the build path — even if the build would now produce something
else. -/
theorem load_or_build_roundtrip (fs : List (String × Jval)) (name : String)
    (build build2 : FingerprintData)
    (hmiss : fs.lookup (file_stem name ++ ".json") = none) :
    (load_or_build_fingerprint fs name build).1 = some build ∧
    (load_or_build_fingerprint fs name build).2.2 = true ∧
    (load_or_build_fingerprint fs name build).2.1.lookup (file_stem name ++ ".json") =
      some (encodeFingerprint build) ∧
    load_or_build_fingerprint ((load_or_build_fingerprint fs name build).2.1) name build2 =
      (some build, (load_or_build_fingerprint fs name build).2.1, false) := by
  unfold load_or_build_fingerprint
  dsimp only
  rw [hmiss]
  dsimp only
  refine ⟨rfl, rfl, lookup_cons_self _ _, ?_⟩
  rw [lookup_cons_self]
  dsimp only
  rw [decodeFingerprint_encodeFingerprint]

/-- Witness for C7 at a concrete input: an empty cache directory, track
name `track.ogg` (stem `track`), and a one-entry fingerprint. -/
theorem load_or_build_roundtrip_witness :
    (([] : List (String × Jval)).lookup (file_stem "track.ogg" ++ ".json") = none) ∧
      ((load_or_build_fingerprint [] "track.ogg" ⟨[⟨1, 2, 3, 4⟩]⟩).1 =
          some ⟨[⟨1, 2, 3, 4⟩]⟩ ∧
        (load_or_build_fingerprint [] "track.ogg" ⟨[⟨1, 2, 3, 4⟩]⟩).2.2 = true ∧
        (load_or_build_fingerprint [] "track.ogg" ⟨[⟨1, 2, 3, 4⟩]⟩).2.1.lookup
            (file_stem "track.ogg" ++ ".json") =
          some (encodeFingerprint ⟨[⟨1, 2, 3, 4⟩]⟩) ∧
        load_or_build_fingerprint
            ((load_or_build_fingerprint [] "track.ogg" ⟨[⟨1, 2, 3, 4⟩]⟩).2.1)
            "track.ogg" ⟨[]⟩ =
          (some ⟨[⟨1, 2, 3, 4⟩]⟩,
            (load_or_build_fingerprint [] "track.ogg" ⟨[⟨1, 2, 3, 4⟩]⟩).2.1, false)) :=
  ⟨rfl, load_or_build_roundtrip [] "track.ogg" ⟨[⟨1, 2, 3, 4⟩]⟩ ⟨[]⟩ rfl⟩

/-! ### Claim theorems: batch scanner error policy (C8) -/

/-- Claim C8: the batch loop converts each per-track result
independently — an `Err` becomes a logged warning + skipped outcome and
never terminates the run (every track still gets exactly one outcome,
in order), while a missing required environment variable makes the run
abort with an error before any track outcome is produced. -/
theorem batch_scan_error_policy (env : List (String × String))
    (results : List (Except String (Option (ℚ × ℕ)))) :
    (scan_tracks results).length = results.length ∧
    (∀ (i : ℕ) (e : String), results.get? i = some (.error e) →
      (scan_tracks results).get? i = some .skipped) ∧
    (∀ i : ℕ, results.get? i = some (.ok none) →
      (scan_tracks results).get? i = some .noMatch) ∧
    (∀ (i : ℕ) (o : ℚ) (c : ℕ), results.get? i = some (.ok (some (o, c))) →
      (scan_tracks results).get? i = some (.hit o c)) ∧
    ((∃ k ∈ required_vars, env.lookup k = none) →
      ∃ e, run_main env results = .error e) ∧
    ((∀ k ∈ required_vars, (env.lookup k).isSome) →
      run_main env results = .ok (scan_tracks results)) := by
  refine ⟨List.length_map _ _, ?_, ?_, ?_, ?_, ?_⟩
  · intro i e h
    unfold scan_tracks
    rw [List.get?_map, h]
    rfl
  · intro i h
    unfold scan_tracks
    rw [List.get?_map, h]
    rfl
  · intro i o c h
    unfold scan_tracks
    rw [List.get?_map, h]
    rfl
  · rintro ⟨k, hk, hnone⟩
    unfold run_main var
    rcases h1 : env.lookup "MUSIC_DIR" with _ | v1
    · exact ⟨"MUSIC_DIR", rfl⟩
    · rcases h2 : env.lookup "SAMPLE_PATH" with _ | v2
      · exact ⟨"SAMPLE_PATH", rfl⟩
      · rcases h3 : env.lookup "SAMPLE_BEGIN" with _ | v3
        · exact ⟨"SAMPLE_BEGIN", rfl⟩
        · rcases h4 : env.lookup "SAMPLE_END" with _ | v4
          · exact ⟨"SAMPLE_END", rfl⟩
          · exfalso
            unfold required_vars at hk
            rcases List.mem_cons.mp hk with rfl | hk
            · rw [h1] at hnone; cases hnone
            · rcases List.mem_cons.mp hk with rfl | hk
              · rw [h2] at hnone; cases hnone
              · rcases List.mem_cons.mp hk with rfl | hk
                · rw [h3] at hnone; cases hnone
                · rcases List.mem_cons.mp hk with rfl | hk
                  · rw [h4] at hnone; cases hnone
                  · cases hk
  · intro hall
    have h1 := hall "MUSIC_DIR" (by unfold required_vars; simp)
    have h2 := hall "SAMPLE_PATH" (by unfold required_vars; simp)
    have h3 := hall "SAMPLE_BEGIN" (by unfold required_vars; simp)
    have h4 := hall "SAMPLE_END" (by unfold required_vars; simp)
    rcases Option.isSome_iff_exists.mp h1 with ⟨v1, hv1⟩
    rcases Option.isSome_iff_exists.mp h2 with ⟨v2, hv2⟩
    rcases Option.isSome_iff_exists.mp h3 with ⟨v3, hv3⟩
    rcases Option.isSome_iff_exists.mp h4 with ⟨v4, hv4⟩
    unfold run_main var
    rw [hv1, hv2, hv3, hv4]
    rfl

/-- Witness for C8 at concrete inputs: a three-track batch with one
error, one no-match and one hit, and both a missing and a complete
environment. -/
theorem batch_scan_error_policy_witness :
    (([.error "boom", .ok none, .ok (some (2, 7))] :
        List (Except String (Option (ℚ × ℕ)))).get? 0 = some (.error "boom") ∧
      (scan_tracks [.error "boom", .ok none, .ok (some (2, 7))]).get? 0 =
        some .skipped) ∧
    ((scan_tracks [.error "boom", .ok none, .ok (some (2, 7))]).get? 2 =
        some (.hit 2 7)) ∧
    ((∃ k ∈ required_vars, ([] : List (String × String)).lookup k = none) ∧
      ∃ e, run_main [] [.error "boom", .ok none, .ok (some (2, 7))] = .error e) ∧
    ((∀ k ∈ required_vars,
        (([("MUSIC_DIR", "m"), ("SAMPLE_PATH", "s"), ("SAMPLE_BEGIN", "0"),
          ("SAMPLE_END", "1")] : List (String × String)).lookup k).isSome) ∧
      run_main [("MUSIC_DIR", "m"), ("SAMPLE_PATH", "s"), ("SAMPLE_BEGIN", "0"),
          ("SAMPLE_END", "1")]
        [.error "boom", .ok none, .ok (some (2, 7))] =
        .ok (scan_tracks [.error "boom", .ok none, .ok (some (2, 7))])) :=
  ⟨⟨rfl, (batch_scan_error_policy [] _).2.1 0 "boom" rfl⟩,
    (batch_scan_error_policy [] _).2.2.2.1 2 2 7 rfl,
    ⟨⟨"MUSIC_DIR", by unfold required_vars; simp, rfl⟩,
      (batch_scan_error_policy [] _).2.2.2.2.1
        ⟨"MUSIC_DIR", by unfold required_vars; simp, rfl⟩⟩,
    ⟨by decide,
      (batch_scan_error_policy _ _).2.2.2.2.2 (by decide)⟩⟩

/-! ### Peak selection (C10): the sort with a panicking comparator -/

lemma pcmp_isSome {u v : Option ℝ} (h : (pcmp u v).isSome) :
    u.isSome ∧ v.isSome := by
  cases u <;> cases v <;> simp [pcmp] at h ⊢

lemma insertOpt_perm {α : Type _} {cmp : α → α → Option Ordering} {x : α}
    {l r : List α} (h : insertOpt cmp x l = some r) : r.Perm (x :: l) := by
  induction l generalizing r with
  | nil =>
    unfold insertOpt at h
    cases h
    exact List.Perm.refl _
  | cons y ys ih =>
    unfold insertOpt at h
    rcases hcmp : cmp x y with _ | o <;> rw [hcmp] at h
    · exact Option.noConfusion h
    · have h2 : (if o = Ordering.gt then (insertOpt cmp x ys).map (fun r => y :: r)
          else some (x :: y :: ys)) = some r := h
      by_cases ho : o = Ordering.gt
      · rw [if_pos ho] at h2
        rcases Option.map_eq_some'.mp h2 with ⟨r', hr', rfl⟩
        exact ((ih hr').cons y).trans (List.Perm.swap x y ys)
      · rw [if_neg ho] at h2
        cases h2
        exact List.Perm.refl _

lemma sortByOpt_perm {α : Type _} {cmp : α → α → Option Ordering}
    {l r : List α} (h : sortByOpt cmp l = some r) : r.Perm l := by
  induction l generalizing r with
  | nil =>
    unfold sortByOpt at h
    cases h
    exact List.Perm.refl _
  | cons x xs ih =>
    unfold sortByOpt at h
    rcases Option.bind_eq_some.mp h with ⟨r', hr', hins⟩
    exact (insertOpt_perm hins).trans ((ih hr').cons x)

lemma insertOpt_sorted (x : ℕ × Option ℝ) (l : List (ℕ × Option ℝ))
    (hx : x.2.isSome) (hl : ∀ y ∈ l, y.2.isSome)
    (hs : l.Pairwise (fun a b => b.2.getD 0 ≤ a.2.getD 0)) :
    ∃ r, insertOpt (fun a b => pcmp b.2 a.2) x l = some r ∧
      r.Pairwise (fun a b => b.2.getD 0 ≤ a.2.getD 0) := by
  induction l with
  | nil => exact ⟨[x], rfl, List.pairwise_singleton _ _⟩
  | cons y ys ih =>
    rcases Option.isSome_iff_exists.mp hx with ⟨a, ha⟩
    rcases Option.isSome_iff_exists.mp (hl y (List.mem_cons_self _ _)) with ⟨b, hb⟩
    rw [List.pairwise_cons] at hs
    have hcmp : pcmp y.2 x.2 =
        some (if b < a then Ordering.lt else if a < b then Ordering.gt
          else Ordering.eq) := by
      rw [hb, ha]
      rfl
    by_cases hab : a < b
    · have ho : (if b < a then Ordering.lt else if a < b then Ordering.gt
          else Ordering.eq) = Ordering.gt := by
        rw [if_neg (asymm hab), if_pos hab]
      rcases ih (fun z hz => hl z (List.mem_cons_of_mem _ hz)) hs.2 with
        ⟨r', hr', hsort'⟩
      refine ⟨y :: r', ?_, ?_⟩
      · unfold insertOpt
        rw [hcmp]
        dsimp only
        rw [ho, if_pos rfl, hr']
        rfl
      · rw [List.pairwise_cons]
        refine ⟨?_, hsort'⟩
        intro z hz
        rcases List.mem_cons.mp ((insertOpt_perm hr').mem_iff.mp hz) with rfl | hzys
        · rw [ha, hb]
          simpa using le_of_lt hab
        · exact hs.1 z hzys
    · have ho : (if b < a then Ordering.lt else if a < b then Ordering.gt
          else Ordering.eq) ≠ Ordering.gt := by
        by_cases hba : b < a
        · rw [if_pos hba]
          exact fun hco => Ordering.noConfusion hco
        · rw [if_neg hba, if_neg hab]
          exact fun hco => Ordering.noConfusion hco
      refine ⟨x :: y :: ys, ?_, ?_⟩
      · unfold insertOpt
        rw [hcmp]
        dsimp only
        rw [if_neg ho]
      · rw [List.pairwise_cons]
        constructor
        · intro z hz
          rcases List.mem_cons.mp hz with rfl | hzys
          · rw [ha, hb]
            simpa using le_of_not_lt hab
          · have h1 : z.2.getD 0 ≤ b := by
              have := hs.1 z hzys
              rw [hb] at this
              simpa using this
            rw [ha]
            simpa using le_trans h1 (le_of_not_lt hab)
        · exact List.pairwise_cons.mpr hs

lemma sortByOpt_sorted (l : List (ℕ × Option ℝ)) (hl : ∀ y ∈ l, y.2.isSome) :
    ∃ r, sortByOpt (fun a b => pcmp b.2 a.2) l = some r ∧ r.Perm l ∧
      r.Pairwise (fun a b => b.2.getD 0 ≤ a.2.getD 0) := by
  induction l with
  | nil => exact ⟨[], rfl, List.Perm.refl _, List.Pairwise.nil⟩
  | cons x xs ih =>
    rcases ih (fun z hz => hl z (List.mem_cons_of_mem _ hz)) with
      ⟨r', hr', hperm', hsort'⟩
    have hl' : ∀ y ∈ r', y.2.isSome :=
      fun y hy => hl y (List.mem_cons_of_mem _ (hperm'.mem_iff.mp hy))
    rcases insertOpt_sorted x r' (hl x (List.mem_cons_self _ _)) hl' hsort' with
      ⟨r, hr, hsort⟩
    refine ⟨r, ?_, (insertOpt_perm hr).trans (hperm'.cons x), hsort⟩
    unfold sortByOpt
    rw [hr', Option.some_bind]
    exact hr

lemma sortByOpt_some_all_isSome {l r : List (ℕ × Option ℝ)}
    (h : sortByOpt (fun a b => pcmp b.2 a.2) l = some r) (h2 : 2 ≤ l.length) :
    ∀ x ∈ l, x.2.isSome := by
  induction l generalizing r with
  | nil => intro x hx; cases hx
  | cons x xs ih =>
    unfold sortByOpt at h
    rcases Option.bind_eq_some.mp h with ⟨r', hr', hins⟩
    have hperm' : r'.Perm xs := sortByOpt_perm hr'
    have hxs : xs ≠ [] := by
      intro hnil
      rw [hnil] at h2
      simp at h2
    have hr'ne : r' ≠ [] := by
      intro hnil
      rw [hnil] at hperm'
      exact hxs (List.Perm.eq_nil hperm'.symm)
    rcases List.exists_cons_of_ne_nil hr'ne with ⟨z, zs, rfl⟩
    unfold insertOpt at hins
    rcases hcmp : pcmp z.2 x.2 with _ | o
    · rw [hcmp] at hins
      exact absurd hins Option.noConfusion
    · have hboth : z.2.isSome ∧ x.2.isSome := by
        apply pcmp_isSome
        rw [hcmp]
        rfl
      intro w hw
      rcases List.mem_cons.mp hw with rfl | hwxs
      · exact hboth.2
      · by_cases hlen : 2 ≤ xs.length
        · exact ih hr' hlen w hwxs
        · have hone : xs.length = 1 := by
            have := List.length_pos.mpr hxs
            omega
          rcases List.length_eq_one.mp hone with ⟨w0, rfl⟩
          have hw0 : w = w0 := List.mem_singleton.mp hwxs
          have hz0 : z = w0 := by
            have := List.perm_singleton.mp hperm'
            cases this
            rfl
          rw [hw0, ← hz0]
          exact hboth.1

lemma sortByOpt_none_of_nan {l : List (ℕ × Option ℝ)} (h2 : 2 ≤ l.length)
    (hnan : ∃ x ∈ l, x.2 = none) :
    sortByOpt (fun a b => pcmp b.2 a.2) l = none := by
  rcases hs : sortByOpt (fun a b => pcmp b.2 a.2) l with _ | r
  · exact hs
  · exfalso
    rcases hnan with ⟨x, hx, hxn⟩
    have := sortByOpt_some_all_isSome hs h2 x hx
    rw [hxn] at this
    cases this

lemma mapO_some_length {α β : Type _} {f : α → Option β} {l : List α} {r : List β}
    (h : mapO f l = some r) : r.length = l.length := by
  induction l generalizing r with
  | nil =>
    unfold mapO at h
    cases h
    rfl
  | cons a tl ih =>
    unfold mapO at h
    rcases hfa : f a with _ | b <;> rw [hfa] at h
    · exact Option.noConfusion h
    · rcases hm : mapO f tl with _ | bs <;> rw [hm] at h
      · exact Option.noConfusion h
      · cases h
        simp [ih hm]

lemma mapO_get? {α β : Type _} {f : α → Option β} {l : List α} {r : List β}
    (h : mapO f l = some r) (i : ℕ) : r.get? i = (l.get? i).bind f := by
  induction l generalizing r i with
  | nil =>
    unfold mapO at h
    cases h
    simp
  | cons a tl ih =>
    unfold mapO at h
    rcases hfa : f a with _ | b <;> rw [hfa] at h
    · exact Option.noConfusion h
    · rcases hm : mapO f tl with _ | bs <;> rw [hm] at h
      · exact Option.noConfusion h
      · cases h
        cases i with
        | zero => simp [hfa]
        | succ n => simpa using ih hm n

lemma mapO_isSome {α β : Type _} {f : α → Option β} {l : List α}
    (h : ∀ a ∈ l, (f a).isSome) : ∃ r, mapO f l = some r := by
  induction l with
  | nil => exact ⟨[], rfl⟩
  | cons a tl ih =>
    rcases Option.isSome_iff_exists.mp (h a (List.mem_cons_self _ _)) with ⟨b, hb⟩
    rcases ih (fun x hx => h x (List.mem_cons_of_mem _ hx)) with ⟨r, hr⟩
    refine ⟨b :: r, ?_⟩
    unfold mapO
    rw [hb, hr]

/-- Counterexample to claim C10 as stated: a 1-bin spectrogram whose
only magnitude is NaN does not panic — a one-element slice is sorted
without ever calling the comparator, so `find_peaks` returns `some [[0]]`
even though a magnitude is NaN. -/
theorem find_peaks_single_nan_no_panic :
    find_peaks [[(none : Option ℝ)]] = some [[0]] := rfl

/-- Claim C10 (amended): peak selection is total only for NaN-free input.
For every rectangular spectrogram (each row at least as long as row 0)
whose magnitudes are all non-NaN, `find_peaks` returns, for each
time-frame, the `min 5 n_bins` bins of greatest magnitude without
panicking; and whenever some in-range magnitude is NaN and the
spectrogram has at least two frequency bins, the magnitude sort's
`partial_cmp(...).unwrap()` panics. -/
theorem find_peaks_characterization :
    (∀ S : List (List (Option ℝ)),
      (∀ row ∈ S, S.headI.length ≤ row.length) →
      (∀ row ∈ S, ∀ v ∈ row, v.isSome) →
      ∃ pbt, find_peaks S = some pbt ∧ pbt.length = S.headI.length ∧
        ∀ t, t < S.headI.length →
          ∃ sel unsel : List (ℕ × Option ℝ),
            (sel ++ unsel).Perm
              ((List.range S.length).map
                (fun f => (f % 65536, (S.getD f []).getD t none))) ∧
            pbt.get? t = some (sel.map Prod.fst) ∧
            sel.length = min 5 S.length ∧
            ∀ a ∈ sel, ∀ b ∈ unsel, b.2.getD 0 ≤ a.2.getD 0) ∧
    (∀ (S : List (List (Option ℝ))) (t f : ℕ),
      t < S.headI.length → f < S.length → 2 ≤ S.length →
      (S.getD f []).get? t = some none →
      find_peaks S = none) := by
  constructor
  · intro S hrect hnn
    by_cases hS0 : S.length = 0
    · have hnil : S = [] := List.length_eq_zero.mp hS0
      subst hnil
      refine ⟨[], rfl, rfl, fun t ht => absurd ht ?_⟩
      rw [show ([] : List (List (Option ℝ))).headI.length = 0 from rfl]
      exact Nat.not_lt_zero t
    · have hrow : ∀ f, f < S.length → S.getD f [] ∈ S := by
        intro f hf
        exact List.get?_mem (get?_eq_some_getD [] hf)
      have hfm : ∀ t, t < S.headI.length →
          mapO (fun f => ((S.getD f []).get? t).map (fun m => (f % 65536, m)))
            (List.range S.length) =
          some ((List.range S.length).map
            (fun f => (f % 65536, (S.getD f []).getD t none))) := by
        intro t ht
        apply mapO_eq_some_map
        intro f hf
        rw [List.mem_range] at hf
        have hlen : t < (S.getD f []).length :=
          lt_of_lt_of_le ht (hrect _ (hrow f hf))
        rw [get?_eq_some_getD none hlen]
        rfl
      have hsorted : ∀ t, t < S.headI.length →
          ∃ sorted,
            sortByOpt (fun a b => pcmp b.2 a.2)
              ((List.range S.length).map
                (fun f => (f % 65536, (S.getD f []).getD t none))) = some sorted ∧
            sorted.Perm ((List.range S.length).map
              (fun f => (f % 65536, (S.getD f []).getD t none))) ∧
            sorted.Pairwise (fun a b => b.2.getD 0 ≤ a.2.getD 0) := by
        intro t ht
        apply sortByOpt_sorted
        intro y hy
        rcases List.mem_map.mp hy with ⟨f, hf, rfl⟩
        rw [List.mem_range] at hf
        have hlen : t < (S.getD f []).length :=
          lt_of_lt_of_le ht (hrect _ (hrow f hf))
        have hmem : (S.getD f []).getD t none ∈ S.getD f [] :=
          List.get?_mem (get?_eq_some_getD none hlen)
        exact hnn _ (hrow f hf) _ hmem
      have hframe : ∀ t ∈ List.range S.headI.length,
          ((fun time_idx =>
            (mapO (fun f => ((S.getD f []).get? time_idx).map
                (fun m => (f % 65536, m))) (List.range S.length)).bind
              (fun freq_mags =>
                (sortByOpt (fun a b => pcmp b.2 a.2) freq_mags).map
                  (fun sorted => (sorted.take 5).map Prod.fst))) t).isSome := by
        intro t ht
        rw [List.mem_range] at ht
        show ((mapO (fun f => ((S.getD f []).get? t).map (fun m => (f % 65536, m)))
            (List.range S.length)).bind
          (fun freq_mags =>
            (sortByOpt (fun a b => pcmp b.2 a.2) freq_mags).map
              (fun sorted => (sorted.take 5).map Prod.fst))).isSome
        rw [hfm t ht, Option.some_bind]
        rcases hsorted t ht with ⟨sorted, hs, _, _⟩
        rw [hs]
        rfl
      rcases mapO_isSome hframe with ⟨pbt, hpbt⟩
      have hgoal : find_peaks S = some pbt := by
        unfold find_peaks
        dsimp only
        rw [if_neg hS0]
        exact hpbt
      refine ⟨pbt, hgoal, ?_, ?_⟩
      · rw [mapO_some_length hpbt, List.length_range]
      · intro t ht
        rcases hsorted t ht with ⟨sorted, hs, hperm, hpair⟩
        refine ⟨sorted.take 5, sorted.drop 5, ?_, ?_, ?_, ?_⟩
        · rw [List.take_append_drop]
          exact hperm
        · rw [mapO_get? hpbt t,
            show (List.range S.headI.length).get? t = some t from by
              rw [List.get?_eq_getElem?, List.getElem?_range ht],
            Option.some_bind]
          rw [hfm t ht, Option.some_bind, hs]
          rfl
        · rw [List.length_take, hperm.length_eq, List.length_map, List.length_range]
        · intro a ha b hb
          have hpa : (sorted.take 5 ++ sorted.drop 5).Pairwise
              (fun a b => b.2.getD 0 ≤ a.2.getD 0) := by
            rw [List.take_append_drop]
            exact hpair
          exact (List.pairwise_append.mp hpa).2.2 a ha b hb
  · intro S t f ht hf h2 hnan
    have hS0 : S.length ≠ 0 := by omega
    unfold find_peaks
    dsimp only
    rw [if_neg hS0]
    apply mapO_none_of_mem t (List.mem_range.mpr ht)
    rcases hm : mapO (fun f2 => ((S.getD f2 []).get? t).map (fun m => (f2 % 65536, m)))
        (List.range S.length) with _ | fm
    · rfl
    · rw [Option.some_bind]
      have hlen : fm.length = S.length := by
        rw [mapO_some_length hm, List.length_range]
      have hmem : ((f % 65536, (none : Option ℝ)) : ℕ × Option ℝ) ∈ fm := by
        have hget := mapO_get? hm f
        rw [show (List.range S.length).get? f = some f from by
            rw [List.get?_eq_getElem?, List.getElem?_range hf],
          Option.some_bind] at hget
        rw [hnan] at hget
        exact List.get?_mem hget
      rw [sortByOpt_none_of_nan (by omega) ⟨_, hmem, rfl⟩]
      rfl

/-- Witness for the amended C10 at concrete inputs: a NaN-free 2×2
spectrogram succeeds; a 2-bin spectrogram with a NaN magnitude panics. -/
theorem find_peaks_characterization_witness :
    ((∀ row ∈ ([[some 1, some 2], [some 3, some 4]] : List (List (Option ℝ))),
        ([[some (1 : ℝ), some 2], [some 3, some 4]] :
          List (List (Option ℝ))).headI.length ≤ row.length) ∧
      (∀ row ∈ ([[some 1, some 2], [some 3, some 4]] : List (List (Option ℝ))),
        ∀ v ∈ row, v.isSome) ∧
      (∃ pbt, find_peaks ([[some 1, some 2], [some 3, some 4]] :
            List (List (Option ℝ))) = some pbt ∧
        pbt.length = ([[some (1 : ℝ), some 2], [some 3, some 4]] :
          List (List (Option ℝ))).headI.length ∧
        ∀ t, t < ([[some (1 : ℝ), some 2], [some 3, some 4]] :
            List (List (Option ℝ))).headI.length →
          ∃ sel unsel : List (ℕ × Option ℝ),
            (sel ++ unsel).Perm
              ((List.range ([[some (1 : ℝ), some 2], [some 3, some 4]] :
                  List (List (Option ℝ))).length).map
                (fun f => (f % 65536,
                  (([[some (1 : ℝ), some 2], [some 3, some 4]] :
                    List (List (Option ℝ))).getD f []).getD t none))) ∧
            pbt.get? t = some (sel.map Prod.fst) ∧
            sel.length = min 5 ([[some (1 : ℝ), some 2], [some 3, some 4]] :
              List (List (Option ℝ))).length ∧
            ∀ a ∈ sel, ∀ b ∈ unsel, b.2.getD 0 ≤ a.2.getD 0)) ∧
    (((0 : ℕ) < ([[some 1], [none]] : List (List (Option ℝ))).headI.length ∧
        (1 : ℕ) < ([[some 1], [none]] : List (List (Option ℝ))).length ∧
        2 ≤ ([[some 1], [none]] : List (List (Option ℝ))).length ∧
        (([[some (1 : ℝ)], [none]] :
          List (List (Option ℝ))).getD 1 []).get? 0 = some none) ∧
      find_peaks ([[some 1], [none]] : List (List (Option ℝ))) = none) := by
  constructor
  · exact ⟨by decide, by decide,
      find_peaks_characterization.1 [[some 1, some 2], [some 3, some 4]]
        (by decide) (by decide)⟩
  · exact ⟨⟨by decide, by decide, by decide, rfl⟩,
      find_peaks_characterization.2 [[some 1], [none]] 0 1
        (by decide) (by decide) (by decide) rfl⟩

end Phantasy
